import Mathlib

/-!
# Verification of the SPF flattener (`src/spfParser.js`)

Shallow embedding of the SPF record parser and recursive flattener.

* `parseSpf` / `parseSpfCore` embed the JavaScript `parseSpf` function
  (tokenisation on whitespace runs, qualifier stripping, `:`/`=`/`all`
  value extraction).  The parser's character-level work is modelled on
  `List Char` (a JavaScript string is a sequence of characters).
* `resolveSpfTxtRecord` embeds the budget-guarded DNS TXT resolution.
  The injected resolver capability (`dnsResolver.resolveTxt`) is modelled
  as a function `String → Except String (List (List String))`: a promise
  either resolves to a list of TXT records (each a list of character
  chunks) or rejects with an error.
* `recursiveFlattenSpf` / `flattenSpf` embed the recursive flattener.
  The JavaScript recursion has no structural termination measure (it is
  bounded only by the shared lookup budget), so the embedding threads an
  explicit fuel parameter; at fuel 0 the recursion stub is never consulted
  in any reachable state because recursion into a sub-record requires a
  successful lookup, which requires the running budget to be below
  `MAX_DNS_LOOKUPS`, and the budget strictly increases by one on each
  descent.  With top-level fuel `MAX_DNS_LOOKUPS + 1` the stub is
  unreachable for every initial budget (proved below as `fuel_congr`
  lemmas showing fuel-irrelevance above the threshold).
-/

set_option maxRecDepth 4000

/-- One SPF mechanism, mirroring the JavaScript object
`{ qualifier, type, value }` produced by `parseSpf`. -/
structure Mechanism where
  qualifier : Char
  type : String
  value : String
deriving DecidableEq, Repr

/-- The qualifier characters recognised by `parseSpf`
(`['+', '-', '~', '?'].includes(mechanismString[0])`). -/
def qualifierChars : List Char := ['+', '-', '~', '?']

/-- JavaScript `\s` for the ASCII range: the characters on which
`spfRecord.split(/\s+/)` separates tokens. -/
def isJsWhitespace (c : Char) : Bool :=
  c == ' ' || c == '\t' || c == '\n' || c == '\r' || c == '\x0b' || c == '\x0c'

/-- `l.split(p)` in the JavaScript sense: split at every character
satisfying `p`, keeping empty segments (so `split` of `""` is `[""]`,
and adjacent separators produce empty segments), exactly like
`String.prototype.split` with a single-character separator. -/
def splitOnPred (p : Char → Bool) : List Char → List (List Char)
  | [] => [[]]
  | c :: cs =>
    if p c then
      [] :: splitOnPred p cs
    else
      match splitOnPred p cs with
      | t :: ts => (c :: t) :: ts
      | [] => [[c]]

/-- `parts.join(c)` on character lists (JavaScript `Array.prototype.join`
with a one-character separator). -/
def joinWithChar (c : Char) : List (List Char) → List Char
  | [] => []
  | [t] => t
  | t :: t2 :: ts => t ++ c :: joinWithChar c (t2 :: ts)

/-- One iteration of the `mechanisms.forEach` body of `parseSpf`:
strip a leading qualifier, then split on `:`; otherwise split on `=`
(the JavaScript code takes `partsWithEquals[1]`, i.e. only the segment
between the first and the second `=`); otherwise the whole remainder is
the type, with value forced to `"all"` when the type is `all`. -/
def parseMechanism (tok : List Char) : Mechanism :=
  let qb : Char × List Char :=
    match tok with
    | c :: cs => if c ∈ qualifierChars then (c, cs) else ('+', tok)
    | [] => ('+', tok)
  match splitOnPred (fun c => c == ':') qb.2 with
  | t :: v :: vs =>
    { qualifier := qb.1, type := String.mk t, value := String.mk (joinWithChar ':' (v :: vs)) }
  | _ =>
    match splitOnPred (fun c => c == '=') qb.2 with
    | t :: v :: _ => { qualifier := qb.1, type := String.mk t, value := String.mk v }
    | _ =>
      if String.mk qb.2 = "all" then
        { qualifier := qb.1, type := String.mk qb.2, value := "all" }
      else
        { qualifier := qb.1, type := String.mk qb.2, value := "" }

/-- `spfRecord.split(/\s+/).filter(part => part.length > 0)`:
tokenisation on whitespace with empty tokens discarded. -/
def tokenize (s : String) : List (List Char) :=
  (splitOnPred isJsWhitespace s.data).filter (fun t => !t.isEmpty)

/-- The total core of `parseSpf` (everything after the input-validity
check): tokenise and parse each token. -/
def parseSpfCore (spfRecord : String) : List Mechanism :=
  (tokenize spfRecord).map parseMechanism

/-- `parseSpf`, including the JavaScript guard
`if (!spfRecord || typeof spfRecord !== 'string') throw ...`; for string
inputs the guard fires exactly on the empty string, modelled as
`Except.error`. -/
def parseSpf (spfRecord : String) : Except String (List Mechanism) :=
  if spfRecord = "" then
    .error "Invalid SPF record provided. Must be a non-empty string."
  else
    .ok (parseSpfCore spfRecord)

/-- The injected DNS capability: `resolveTxt(hostname)` yields the list
of TXT records (each an array of character chunks) or rejects. -/
abbrev DnsResolver := String → Except String (List (List String))

/-- `MAX_DNS_LOOKUPS` from `spfParser.js`. -/
def MAX_DNS_LOOKUPS : Nat := 10

/-- `resolveSpfTxtRecord(hostname, currentDnsLookups)`: refuse to query
once the budget has reached the ceiling; otherwise issue one query,
join each TXT record's chunks, keep only records starting with
`v=spf1`, and increment the budget by exactly one — also on lookup
failure, which is absorbed as "zero records". -/
def resolveSpfTxtRecord (dnsResolver : DnsResolver) (hostname : String)
    (currentDnsLookups : Nat) : List String × Nat :=
  if currentDnsLookups ≥ MAX_DNS_LOOKUPS then
    ([], currentDnsLookups)
  else
    match dnsResolver hostname with
    | .ok records =>
      (((records.map String.join).filter
        (fun r => "v=spf1".data.isPrefixOf r.data)), currentDnsLookups + 1)
    | .error _ => ([], currentDnsLookups + 1)

/-- Outcome of the `for (const mechanism of parsedSpf)` loop of
`recursiveFlattenSpf`: either the loop `return`ed early from the
`redirect` branch, or it ran to completion with the accumulated
mechanisms, the level's recorded `all` mechanism, and the lookup count. -/
inductive LoopOut where
  | early (mechs : List Mechanism) (count : Nat)
  | done (acc : List Mechanism) (finalAll : Option Mechanism) (count : Nat)
deriving DecidableEq, Repr

/-- The lookup count carried by a loop outcome. -/
def LoopOut.lookups : LoopOut → Nat
  | .early _ n => n
  | .done _ _ n => n

/-- The inner `for (const record of resolvedSpfRecords)` loop of the
`include` branch: parse each resolved record, recurse (through the
supplied recursion function), and append the sub-result minus `v`
mechanisms. -/
def includeFold (recurse : String → List Mechanism → Nat → List Mechanism × Nat)
    (hostname : String) (acc : List Mechanism) (d : Nat) :
    List String → List Mechanism × Nat
  | [] => (acc, d)
  | record :: rest =>
    let subParsed := parseSpfCore record
    let sub := recurse hostname subParsed d
    includeFold recurse hostname (acc ++ sub.1.filter (fun m => m.type != "v")) sub.2 rest

/-- The mechanism loop of `recursiveFlattenSpf`, parameterised by the
recursion function used for sub-records (`recurse hostname parsed budget`). -/
def flattenLoop (dnsResolver : DnsResolver)
    (recurse : String → List Mechanism → Nat → List Mechanism × Nat) :
    List Mechanism → List Mechanism → Option Mechanism → Nat → LoopOut
  | [], acc, finalAll, d => .done acc finalAll d
  | m :: rest, acc, finalAll, d =>
    if m.type = "v" then
      flattenLoop dnsResolver recurse rest acc finalAll d
    else if m.type = "redirect" then
      let res := resolveSpfTxtRecord dnsResolver m.value d
      match res.1 with
      | [] => .early [] res.2
      | record :: _ =>
        let sub := recurse m.value (parseSpfCore record) res.2
        .early sub.1 sub.2
    else if m.type = "include" then
      let res := resolveSpfTxtRecord dnsResolver m.value d
      let folded := includeFold recurse m.value acc res.2 res.1
      flattenLoop dnsResolver recurse rest folded.1 finalAll folded.2
    else if m.type = "all" then
      flattenLoop dnsResolver recurse rest acc (some m) d
    else
      flattenLoop dnsResolver recurse rest (acc ++ [m]) finalAll d

/-- The duplicate-removal loop of `recursiveFlattenSpf` (`seen` set of
structurally-identical mechanisms, first occurrence kept). -/
def dedupGo (seen : List Mechanism) : List Mechanism → List Mechanism
  | [] => []
  | m :: rest => if m ∈ seen then dedupGo seen rest else m :: dedupGo (m :: seen) rest

/-- `uniqueMechanisms` computation of `recursiveFlattenSpf`. -/
def dedupMechanisms (l : List Mechanism) : List Mechanism := dedupGo [] l

/-- The post-pass of `recursiveFlattenSpf`: on a completed loop,
deduplicate, and if the level recorded its own `all`, strip every
`all`-typed mechanism and append the recorded one last.  An early
(redirect) return is passed through unchanged. -/
def finishLevel : LoopOut → List Mechanism × Nat
  | .early mechs d => (mechs, d)
  | .done acc finalAll d =>
    let uniqueMechanisms := dedupMechanisms acc
    match finalAll with
    | some a => (uniqueMechanisms.filter (fun m => m.type != "all") ++ [a], d)
    | none => (uniqueMechanisms, d)

/-- Fuelled form of `recursiveFlattenSpf`.  The JavaScript function
recurses with the shared budget as its only bound; the fuel only serves
as a termination measure and is irrelevant whenever
`MAX_DNS_LOOKUPS < fuel + budget` (lemma `recursiveFlattenSpfFuel_congr`):
the fuel-0 stub is unreachable because recursion requires a successful
lookup below the ceiling, which raises the budget. -/
def recursiveFlattenSpfFuel (dnsResolver : DnsResolver) :
    Nat → List Mechanism → String → Nat → List Mechanism × Nat
  | 0, parsedSpf, _domain, d =>
    finishLevel (flattenLoop dnsResolver (fun _ _ d2 => ([], d2)) parsedSpf [] none d)
  | fuel + 1, parsedSpf, _domain, d =>
    finishLevel (flattenLoop dnsResolver
      (fun h sub d2 => recursiveFlattenSpfFuel dnsResolver fuel sub h d2) parsedSpf [] none d)

/-- `recursiveFlattenSpf(parsedSpf, domain, currentDnsLookups)`. -/
def recursiveFlattenSpf (dnsResolver : DnsResolver) (parsedSpf : List Mechanism)
    (domain : String) (currentDnsLookups : Nat) : List Mechanism × Nat :=
  recursiveFlattenSpfFuel dnsResolver (MAX_DNS_LOOKUPS + 1) parsedSpf domain currentDnsLookups

/-- `flattenSpf(parsedSpf, domain)`: flatten with an initial budget of 0
and reinstate the original record's first `v=spf1` mechanism (if any) at
the front. -/
def flattenSpf (dnsResolver : DnsResolver) (parsedSpf : List Mechanism)
    (domain : String) : List Mechanism :=
  let res := recursiveFlattenSpf dnsResolver parsedSpf domain 0
  match parsedSpf.find? (fun m => m.type == "v" && m.value == "spf1") with
  | some vSpf1 => vSpf1 :: res.1
  | none => res.1

/-- Deduplication as the specification words it: fold left over the
sequence, appending a mechanism only when no structurally identical one
was appended before (first occurrence kept, order preserved).  Used to
state the refinement claim about `dedupMechanisms`. -/
def dedupSpec (l : List Mechanism) : List Mechanism :=
  l.foldl (fun acc m => if m ∈ acc then acc else acc ++ [m]) []

/-- Test resolver: `redirected.com` carries `v=spf1 ip4:9.10.11.12 ?all`. -/
def resolverRedirected : DnsResolver := fun hostname =>
  if hostname = "redirected.com" then .ok [["v=spf1 ip4:9.10.11.12 ?all"]]
  else .error "ENOTFOUND"

/-- Test resolver: `included.com` carries `v=spf1 ip4:1.2.3.4 -all`. -/
def resolverIncludedAll : DnsResolver := fun hostname =>
  if hostname = "included.com" then .ok [["v=spf1 ip4:1.2.3.4 -all"]]
  else .error "ENOTFOUND"

/-- Test resolver: `included.com` carries `v=spf1 ip4:1.2.3.4`. -/
def resolverIncludedDup : DnsResolver := fun hostname =>
  if hostname = "included.com" then .ok [["v=spf1 ip4:1.2.3.4"]]
  else .error "ENOTFOUND"

/-- Test resolver: two included branches carrying differently-qualified
`all` mechanisms. -/
def resolverTwoAlls : DnsResolver := fun hostname =>
  if hostname = "a.com" then .ok [["v=spf1 -all"]]
  else if hostname = "b.com" then .ok [["v=spf1 ~all"]]
  else .error "ENOTFOUND"

/-- Test resolver rejecting every query. -/
def failingResolver : DnsResolver := fun _ => .error "ENOTFOUND"

/-- Test resolver with a cyclic include graph: `loop.com` includes itself. -/
def cyclicResolver : DnsResolver := fun hostname =>
  if hostname = "loop.com" then .ok [["v=spf1 include:loop.com"]]
  else .error "ENOTFOUND"

example : parseSpfCore "v=spf1 include:_spf.google.com ~all" =
    [{ qualifier := '+', type := "v", value := "spf1" },
     { qualifier := '+', type := "include", value := "_spf.google.com" },
     { qualifier := '~', type := "all", value := "all" }] := by decide

example : parseSpfCore "v=spf1 +a ?mx -ptr ~all" =
    [{ qualifier := '+', type := "v", value := "spf1" },
     { qualifier := '+', type := "a", value := "" },
     { qualifier := '?', type := "mx", value := "" },
     { qualifier := '-', type := "ptr", value := "" },
     { qualifier := '~', type := "all", value := "all" }] := by decide

example : flattenSpf resolverRedirected (parseSpfCore "v=spf1 redirect=redirected.com")
    "example.com" =
    [{ qualifier := '+', type := "v", value := "spf1" },
     { qualifier := '+', type := "ip4", value := "9.10.11.12" },
     { qualifier := '?', type := "all", value := "all" }] := by decide

/-! ## Lemmas about `resolveSpfTxtRecord` -/

theorem resolve_saturated (R : DnsResolver) (h : String) (d : Nat)
    (hd : MAX_DNS_LOOKUPS ≤ d) : resolveSpfTxtRecord R h d = ([], d) := by
  simp [resolveSpfTxtRecord, hd]

theorem resolve_resolver_irrelevant (R R' : DnsResolver) (h : String) (d : Nat)
    (hd : MAX_DNS_LOOKUPS ≤ d) :
    resolveSpfTxtRecord R h d = resolveSpfTxtRecord R' h d := by
  rw [resolve_saturated R h d hd, resolve_saturated R' h d hd]

theorem resolve_error (R : DnsResolver) (h : String) (d : Nat) (e : String)
    (he : R h = .error e) (hd : d < MAX_DNS_LOOKUPS) :
    resolveSpfTxtRecord R h d = ([], d + 1) := by
  simp [resolveSpfTxtRecord, Nat.not_le_of_lt hd, he]

theorem resolve_le_budget (R : DnsResolver) (h : String) (d : Nat) :
    d ≤ (resolveSpfTxtRecord R h d).2 := by
  unfold resolveSpfTxtRecord
  split
  · simp
  · match R h with
    | .ok records => simp
    | .error _ => simp

theorem resolve_budget_le (R : DnsResolver) (h : String) (d : Nat) :
    (resolveSpfTxtRecord R h d).2 ≤ max d MAX_DNS_LOOKUPS := by
  unfold resolveSpfTxtRecord
  split
  · exact Nat.le_max_left _ _
  · have hd : d < MAX_DNS_LOOKUPS := Nat.lt_of_not_le (by assumption)
    match R h with
    | .ok records => exact Nat.le_trans hd (Nat.le_max_right _ _)
    | .error _ => exact Nat.le_trans hd (Nat.le_max_right _ _)

theorem resolve_nonempty (R : DnsResolver) (h : String) (d : Nat)
    (hne : (resolveSpfTxtRecord R h d).1 ≠ []) :
    d < MAX_DNS_LOOKUPS ∧ (resolveSpfTxtRecord R h d).2 = d + 1 := by
  by_cases hd : MAX_DNS_LOOKUPS ≤ d
  · rw [resolve_saturated R h d hd] at hne
    simp at hne
  · refine ⟨Nat.lt_of_not_le hd, ?_⟩
    unfold resolveSpfTxtRecord
    rw [if_neg hd]
    match R h with
    | .ok records => simp
    | .error _ => simp

/-! ## Budget bounds through the loop and the recursion -/

/-- Property of a recursion function: it never decreases the budget and
never pushes it past `max budget MAX_DNS_LOOKUPS`. -/
def RecurseBounded (recurse : String → List Mechanism → Nat → List Mechanism × Nat) : Prop :=
  ∀ h ms d, d ≤ (recurse h ms d).2 ∧ (recurse h ms d).2 ≤ max d MAX_DNS_LOOKUPS

theorem includeFold_bounds (recurse) (hrc : RecurseBounded recurse) (h : String) :
    ∀ (recs : List String) (acc : List Mechanism) (d : Nat),
      d ≤ (includeFold recurse h acc d recs).2 ∧
      (includeFold recurse h acc d recs).2 ≤ max d MAX_DNS_LOOKUPS := by
  intro recs
  induction recs with
  | nil => intro acc d; simp [includeFold]
  | cons r rest ih =>
    intro acc d
    have h1 := hrc h (parseSpfCore r) d
    have h2 := ih (acc ++ (recurse h (parseSpfCore r) d).1.filter (fun m => m.type != "v"))
      (recurse h (parseSpfCore r) d).2
    constructor
    · exact Nat.le_trans h1.1 (by simpa [includeFold] using h2.1)
    · have : (includeFold recurse h
          (acc ++ (recurse h (parseSpfCore r) d).1.filter (fun m => m.type != "v"))
          (recurse h (parseSpfCore r) d).2 rest).2 ≤ max d MAX_DNS_LOOKUPS := by
        refine Nat.le_trans h2.2 ?_
        have := h1.2
        omega
      simpa [includeFold] using this

/-! ### Branch-unfolding equations for `flattenLoop` -/

theorem flattenLoop_nil (R : DnsResolver) (rc) (acc fa d) :
    flattenLoop R rc [] acc fa d = .done acc fa d := rfl

theorem flattenLoop_v (R : DnsResolver) (rc) (m : Mechanism) (rest acc fa d)
    (h : m.type = "v") :
    flattenLoop R rc (m :: rest) acc fa d = flattenLoop R rc rest acc fa d := by
  simp [flattenLoop, h]

theorem flattenLoop_redirect_none (R : DnsResolver) (rc) (m : Mechanism) (rest acc fa d)
    (h : m.type = "redirect") (hrec : (resolveSpfTxtRecord R m.value d).1 = []) :
    flattenLoop R rc (m :: rest) acc fa d =
      .early [] (resolveSpfTxtRecord R m.value d).2 := by
  simp [flattenLoop, h, hrec]

theorem flattenLoop_redirect_some (R : DnsResolver) (rc) (m : Mechanism)
    (rest acc fa d record more)
    (h : m.type = "redirect") (hrec : (resolveSpfTxtRecord R m.value d).1 = record :: more) :
    flattenLoop R rc (m :: rest) acc fa d =
      .early (rc m.value (parseSpfCore record) (resolveSpfTxtRecord R m.value d).2).1
        (rc m.value (parseSpfCore record) (resolveSpfTxtRecord R m.value d).2).2 := by
  simp [flattenLoop, h, hrec]

theorem flattenLoop_include (R : DnsResolver) (rc) (m : Mechanism) (rest acc fa d)
    (h : m.type = "include") :
    flattenLoop R rc (m :: rest) acc fa d =
      flattenLoop R rc rest
        (includeFold rc m.value acc (resolveSpfTxtRecord R m.value d).2
          (resolveSpfTxtRecord R m.value d).1).1
        fa
        (includeFold rc m.value acc (resolveSpfTxtRecord R m.value d).2
          (resolveSpfTxtRecord R m.value d).1).2 := by
  simp [flattenLoop, h]

theorem flattenLoop_all (R : DnsResolver) (rc) (m : Mechanism) (rest acc fa d)
    (h : m.type = "all") :
    flattenLoop R rc (m :: rest) acc fa d = flattenLoop R rc rest acc (some m) d := by
  simp [flattenLoop, h]

theorem flattenLoop_plain (R : DnsResolver) (rc) (m : Mechanism) (rest acc fa d)
    (hv : m.type ≠ "v") (hr : m.type ≠ "redirect") (hi : m.type ≠ "include")
    (ha : m.type ≠ "all") :
    flattenLoop R rc (m :: rest) acc fa d =
      flattenLoop R rc rest (acc ++ [m]) fa d := by
  simp [flattenLoop, hv, hr, hi, ha]

theorem includeFold_nil (rc) (h : String) (acc d) : includeFold rc h acc d [] = (acc, d) := rfl

theorem includeFold_cons (rc) (h : String) (acc d record rest) :
    includeFold rc h acc d (record :: rest) =
      includeFold rc h
        (acc ++ (rc h (parseSpfCore record) d).1.filter (fun m => m.type != "v"))
        (rc h (parseSpfCore record) d).2 rest := rfl

theorem flattenLoop_bounds (R : DnsResolver) (recurse) (hrc : RecurseBounded recurse) :
    ∀ (ms acc : List Mechanism) (fa : Option Mechanism) (d : Nat),
      d ≤ (flattenLoop R recurse ms acc fa d).lookups ∧
      (flattenLoop R recurse ms acc fa d).lookups ≤ max d MAX_DNS_LOOKUPS := by
  intro ms
  induction ms with
  | nil => intro acc fa d; simp [flattenLoop_nil, LoopOut.lookups]
  | cons m rest ih =>
    intro acc fa d
    by_cases hv : m.type = "v"
    · rw [flattenLoop_v R recurse m rest acc fa d hv]; exact ih acc fa d
    · by_cases hr : m.type = "redirect"
      · have hres1 := resolve_le_budget R m.value d
        have hres2 := resolve_budget_le R m.value d
        rcases hrec : (resolveSpfTxtRecord R m.value d).1 with _ | ⟨record, more⟩
        · rw [flattenLoop_redirect_none R recurse m rest acc fa d hr hrec]
          exact ⟨hres1, hres2⟩
        · rw [flattenLoop_redirect_some R recurse m rest acc fa d record more hr hrec]
          have hs := hrc m.value (parseSpfCore record) (resolveSpfTxtRecord R m.value d).2
          simp only [LoopOut.lookups]
          constructor
          · exact Nat.le_trans hres1 hs.1
          · have := hs.2
            omega
      · by_cases hi : m.type = "include"
        · rw [flattenLoop_include R recurse m rest acc fa d hi]
          have hres1 := resolve_le_budget R m.value d
          have hres2 := resolve_budget_le R m.value d
          have hfold := includeFold_bounds recurse hrc m.value
            (resolveSpfTxtRecord R m.value d).1 acc (resolveSpfTxtRecord R m.value d).2
          have hloop := ih
            (includeFold recurse m.value acc (resolveSpfTxtRecord R m.value d).2
              (resolveSpfTxtRecord R m.value d).1).1
            fa
            (includeFold recurse m.value acc (resolveSpfTxtRecord R m.value d).2
              (resolveSpfTxtRecord R m.value d).1).2
          constructor
          · exact Nat.le_trans hres1 (Nat.le_trans hfold.1 hloop.1)
          · have h1 := hloop.2
            have h2 := hfold.2
            omega
        · by_cases ha : m.type = "all"
          · rw [flattenLoop_all R recurse m rest acc fa d ha]; exact ih acc (some m) d
          · rw [flattenLoop_plain R recurse m rest acc fa d hv hr hi ha]
            exact ih (acc ++ [m]) fa d

theorem finishLevel_lookups (o : LoopOut) : (finishLevel o).2 = o.lookups := by
  cases o with
  | early mechs d => rfl
  | done acc fa d =>
    cases fa with
    | some a => rfl
    | none => rfl

theorem recursiveFlattenSpfFuel_bounds (R : DnsResolver) :
    ∀ (fuel : Nat) (ms : List Mechanism) (dom : String) (d : Nat),
      d ≤ (recursiveFlattenSpfFuel R fuel ms dom d).2 ∧
      (recursiveFlattenSpfFuel R fuel ms dom d).2 ≤ max d MAX_DNS_LOOKUPS := by
  intro fuel
  induction fuel with
  | zero =>
    intro ms dom d
    have hstub : RecurseBounded (fun _ _ d2 => (([] : List Mechanism), d2)) := by
      intro h ms d; simp
    have := flattenLoop_bounds R _ hstub ms [] none d
    simpa [recursiveFlattenSpfFuel, finishLevel_lookups] using this
  | succ fuel ih =>
    intro ms dom d
    have hrc : RecurseBounded (fun h sub d2 => recursiveFlattenSpfFuel R fuel sub h d2) := by
      intro h ms d; exact ih ms h d
    have := flattenLoop_bounds R _ hrc ms [] none d
    simpa [recursiveFlattenSpfFuel, finishLevel_lookups] using this

theorem recursiveFlattenSpf_bounds (R : DnsResolver) (ms : List Mechanism)
    (dom : String) (d : Nat) :
    d ≤ (recursiveFlattenSpf R ms dom d).2 ∧
    (recursiveFlattenSpf R ms dom d).2 ≤ max d MAX_DNS_LOOKUPS :=
  recursiveFlattenSpfFuel_bounds R (MAX_DNS_LOOKUPS + 1) ms dom d

/-! ## Saturation: at or above the ceiling nothing is looked up -/

theorem flattenLoop_saturated (R R' : DnsResolver) (rc rc') :
    ∀ (ms acc : List Mechanism) (fa : Option Mechanism) (d : Nat), MAX_DNS_LOOKUPS ≤ d →
      flattenLoop R rc ms acc fa d = flattenLoop R' rc' ms acc fa d := by
  intro ms
  induction ms with
  | nil => intro acc fa d _; rfl
  | cons m rest ih =>
    intro acc fa d hd
    by_cases hv : m.type = "v"
    · rw [flattenLoop_v R rc m rest acc fa d hv, flattenLoop_v R' rc' m rest acc fa d hv]
      exact ih acc fa d hd
    · by_cases hr : m.type = "redirect"
      · have h1 := resolve_saturated R m.value d hd
        have h2 := resolve_saturated R' m.value d hd
        rw [flattenLoop_redirect_none R rc m rest acc fa d hr (by rw [h1]),
          flattenLoop_redirect_none R' rc' m rest acc fa d hr (by rw [h2]), h1, h2]
      · by_cases hi : m.type = "include"
        · have h1 := resolve_saturated R m.value d hd
          have h2 := resolve_saturated R' m.value d hd
          rw [flattenLoop_include R rc m rest acc fa d hi,
            flattenLoop_include R' rc' m rest acc fa d hi, h1, h2]
          exact ih acc fa d hd
        · by_cases ha : m.type = "all"
          · rw [flattenLoop_all R rc m rest acc fa d ha,
              flattenLoop_all R' rc' m rest acc fa d ha]
            exact ih acc (some m) d hd
          · rw [flattenLoop_plain R rc m rest acc fa d hv hr hi ha,
              flattenLoop_plain R' rc' m rest acc fa d hv hr hi ha]
            exact ih (acc ++ [m]) fa d hd

theorem recursiveFlattenSpfFuel_domain_irrelevant (R : DnsResolver) (fuel : Nat)
    (ms : List Mechanism) (dom dom' : String) (d : Nat) :
    recursiveFlattenSpfFuel R fuel ms dom d = recursiveFlattenSpfFuel R fuel ms dom' d := by
  cases fuel with
  | zero => rfl
  | succ fuel => rfl

theorem recursiveFlattenSpfFuel_saturated (R : DnsResolver) (fuel : Nat)
    (ms : List Mechanism) (dom dom' : String) (d : Nat) (hd : MAX_DNS_LOOKUPS ≤ d) :
    recursiveFlattenSpfFuel R fuel ms dom d = recursiveFlattenSpfFuel R 0 ms dom' d := by
  cases fuel with
  | zero => exact recursiveFlattenSpfFuel_domain_irrelevant R 0 ms dom dom' d
  | succ fuel =>
    show finishLevel _ = finishLevel _
    rw [flattenLoop_saturated R R _ (fun _ _ d2 => ([], d2)) ms [] none d hd]

/-! ## Fuel congruence: the fuel is irrelevant above the threshold -/

theorem includeFold_congr (rc1 rc2) (hrc1 : RecurseBounded rc1) (d0 : Nat)
    (hag : ∀ h sub d, d0 < d → d ≤ MAX_DNS_LOOKUPS → rc1 h sub d = rc2 h sub d)
    (h : String) :
    ∀ (recs : List String) (acc : List Mechanism) (d : Nat),
      d0 < d → d ≤ MAX_DNS_LOOKUPS →
      includeFold rc1 h acc d recs = includeFold rc2 h acc d recs := by
  intro recs
  induction recs with
  | nil => intro acc d _ _; rfl
  | cons record rest ih =>
    intro acc d hlt hle
    rw [includeFold_cons, includeFold_cons, ← hag h (parseSpfCore record) d hlt hle]
    have hb := hrc1 h (parseSpfCore record) d
    exact ih _ _ (Nat.lt_of_lt_of_le hlt hb.1) (by have := hb.2; omega)

theorem flattenLoop_congr (R : DnsResolver) (rc1 rc2) (hrc1 : RecurseBounded rc1) (d0 : Nat)
    (hag : ∀ h sub d, d0 < d → d ≤ MAX_DNS_LOOKUPS → rc1 h sub d = rc2 h sub d) :
    ∀ (ms acc : List Mechanism) (fa : Option Mechanism) (d : Nat), d0 ≤ d →
      flattenLoop R rc1 ms acc fa d = flattenLoop R rc2 ms acc fa d := by
  intro ms
  induction ms with
  | nil => intro acc fa d _; rfl
  | cons m rest ih =>
    intro acc fa d hd
    by_cases hv : m.type = "v"
    · rw [flattenLoop_v R rc1 m rest acc fa d hv, flattenLoop_v R rc2 m rest acc fa d hv]
      exact ih acc fa d hd
    · by_cases hr : m.type = "redirect"
      · rcases hrec : (resolveSpfTxtRecord R m.value d).1 with _ | ⟨record, more⟩
        · rw [flattenLoop_redirect_none R rc1 m rest acc fa d hr hrec,
            flattenLoop_redirect_none R rc2 m rest acc fa d hr hrec]
        · have hne := resolve_nonempty R m.value d (by rw [hrec]; simp)
          rw [flattenLoop_redirect_some R rc1 m rest acc fa d record more hr hrec,
            flattenLoop_redirect_some R rc2 m rest acc fa d record more hr hrec,
            hag m.value (parseSpfCore record) (resolveSpfTxtRecord R m.value d).2
              (by omega) (by omega)]
      · by_cases hi : m.type = "include"
        · rw [flattenLoop_include R rc1 m rest acc fa d hi,
            flattenLoop_include R rc2 m rest acc fa d hi]
          rcases hrec : (resolveSpfTxtRecord R m.value d).1 with _ | ⟨record, more⟩
          · rw [includeFold_nil, includeFold_nil]
            have hge := resolve_le_budget R m.value d
            exact ih acc fa _ (Nat.le_trans hd hge)
          · have hne := resolve_nonempty R m.value d (by rw [hrec]; simp)
            rw [← includeFold_congr rc1 rc2 hrc1 d0 hag m.value (record :: more) acc
              (resolveSpfTxtRecord R m.value d).2 (by omega) (by omega)]
            have hfold := includeFold_bounds rc1 hrc1 m.value (record :: more) acc
              (resolveSpfTxtRecord R m.value d).2
            exact ih _ fa _ (by have := hfold.1; omega)
        · by_cases ha : m.type = "all"
          · rw [flattenLoop_all R rc1 m rest acc fa d ha,
              flattenLoop_all R rc2 m rest acc fa d ha]
            exact ih acc (some m) d hd
          · rw [flattenLoop_plain R rc1 m rest acc fa d hv hr hi ha,
              flattenLoop_plain R rc2 m rest acc fa d hv hr hi ha]
            exact ih (acc ++ [m]) fa d hd

theorem recursiveFlattenSpfFuel_congr (R : DnsResolver) :
    ∀ (f1 f2 : Nat) (ms : List Mechanism) (dom dom' : String) (d : Nat),
      MAX_DNS_LOOKUPS < f1 + d → MAX_DNS_LOOKUPS < f2 + d →
      recursiveFlattenSpfFuel R f1 ms dom d = recursiveFlattenSpfFuel R f2 ms dom' d := by
  intro f1
  induction f1 with
  | zero =>
    intro f2 ms dom dom' d h1 h2
    have hd : MAX_DNS_LOOKUPS ≤ d := by omega
    rw [recursiveFlattenSpfFuel_saturated R f2 ms dom' dom d hd]
  | succ g1 ih =>
    intro f2 ms dom dom' d h1 h2
    by_cases hd : MAX_DNS_LOOKUPS ≤ d
    · rw [recursiveFlattenSpfFuel_saturated R (g1 + 1) ms dom dom d hd,
        recursiveFlattenSpfFuel_saturated R f2 ms dom' dom d hd]
    · cases f2 with
      | zero => omega
      | succ g2 =>
        show finishLevel _ = finishLevel _
        rw [flattenLoop_congr R
          (fun h sub d2 => recursiveFlattenSpfFuel R g1 sub h d2)
          (fun h sub d2 => recursiveFlattenSpfFuel R g2 sub h d2)
          (fun h sub d2 => recursiveFlattenSpfFuel_bounds R g1 sub h d2)
          d
          (fun h sub d2 hlt hle => ih g2 sub h h d2 (by omega) (by omega))
          ms [] none d (Nat.le_refl d)]

theorem recursiveFlattenSpfFuel_eq (R : DnsResolver) (f : Nat) (ms : List Mechanism)
    (dom dom' : String) (d : Nat) (hf : MAX_DNS_LOOKUPS < f + d) :
    recursiveFlattenSpfFuel R f ms dom d = recursiveFlattenSpf R ms dom' d := by
  exact recursiveFlattenSpfFuel_congr R f (MAX_DNS_LOOKUPS + 1) ms dom dom' d hf (by omega)

/-! ## Structural lemmas about the mechanism loop -/

theorem getLast?_cons_match {α : Type} (a : α) (l : List α) :
    (a :: l).getLast? = match l.getLast? with | some b => some b | none => some a := by
  cases l with
  | nil => rfl
  | cons b l =>
    rcases h : (b :: l).getLast? with _ | x
    · simp at h
    · rw [List.getLast?_cons_cons, h]

theorem flattenLoop_append (R : DnsResolver) (rc) :
    ∀ (ms1 ms2 acc : List Mechanism) (fa : Option Mechanism) (d : Nat),
      flattenLoop R rc (ms1 ++ ms2) acc fa d =
        match flattenLoop R rc ms1 acc fa d with
        | .early mechs c => .early mechs c
        | .done acc' fa' c => flattenLoop R rc ms2 acc' fa' c := by
  intro ms1
  induction ms1 with
  | nil => intro ms2 acc fa d; simp [flattenLoop_nil]
  | cons m rest ih =>
    intro ms2 acc fa d
    rw [List.cons_append]
    by_cases hv : m.type = "v"
    · rw [flattenLoop_v R rc m (rest ++ ms2) acc fa d hv, flattenLoop_v R rc m rest acc fa d hv]
      exact ih ms2 acc fa d
    · by_cases hr : m.type = "redirect"
      · rcases hrec : (resolveSpfTxtRecord R m.value d).1 with _ | ⟨record, more⟩
        · rw [flattenLoop_redirect_none R rc m (rest ++ ms2) acc fa d hr hrec,
            flattenLoop_redirect_none R rc m rest acc fa d hr hrec]
        · rw [flattenLoop_redirect_some R rc m (rest ++ ms2) acc fa d record more hr hrec,
            flattenLoop_redirect_some R rc m rest acc fa d record more hr hrec]
      · by_cases hi : m.type = "include"
        · rw [flattenLoop_include R rc m (rest ++ ms2) acc fa d hi,
            flattenLoop_include R rc m rest acc fa d hi]
          exact ih ms2 _ fa _
        · by_cases ha : m.type = "all"
          · rw [flattenLoop_all R rc m (rest ++ ms2) acc fa d ha,
              flattenLoop_all R rc m rest acc fa d ha]
            exact ih ms2 acc (some m) d
          · rw [flattenLoop_plain R rc m (rest ++ ms2) acc fa d hv hr hi ha,
              flattenLoop_plain R rc m rest acc fa d hv hr hi ha]
            exact ih ms2 (acc ++ [m]) fa d

/-- A segment with no `include` and no `redirect` performs no lookup:
the loop appends the plain mechanisms to the accumulator in order,
records the last `all` mechanism of the segment (if any), and leaves
the budget untouched. -/
theorem flattenLoop_no_lookup (R : DnsResolver) (rc) :
    ∀ (ms acc : List Mechanism) (fa : Option Mechanism) (d : Nat),
      (∀ m ∈ ms, m.type ≠ "include" ∧ m.type ≠ "redirect") →
      flattenLoop R rc ms acc fa d =
        .done (acc ++ ms.filter (fun m => m.type != "v" && m.type != "all"))
          (match (ms.filter (fun m => m.type == "all")).getLast? with
            | some a => some a
            | none => fa) d := by
  intro ms
  induction ms with
  | nil => intro acc fa d _; simp [flattenLoop_nil]
  | cons m rest ih =>
    intro acc fa d hms
    have hm := hms m (List.mem_cons_self m rest)
    have hrest : ∀ m ∈ rest, m.type ≠ "include" ∧ m.type ≠ "redirect" :=
      fun x hx => hms x (List.mem_cons_of_mem m hx)
    by_cases hv : m.type = "v"
    · rw [flattenLoop_v R rc m rest acc fa d hv, ih acc fa d hrest]
      have h1 : (m.type != "v" && m.type != "all") = false := by simp [hv]
      have h2 : (m.type == "all") = false := by simp [hv]
      simp [List.filter_cons, h1, h2]
    · by_cases ha : m.type = "all"
      · rw [flattenLoop_all R rc m rest acc fa d ha, ih acc (some m) d hrest]
        have h1 : (m.type != "v" && m.type != "all") = false := by simp [ha]
        have h2 : (m.type == "all") = true := by simp [ha]
        rcases hY : (rest.filter (fun m => m.type == "all")).getLast? with _ | x
        · simp [List.filter_cons, h1, h2, getLast?_cons_match, hY]
        · simp [List.filter_cons, h1, h2, getLast?_cons_match, hY]
      · rw [flattenLoop_plain R rc m rest acc fa d hv hm.2 hm.1 ha, ih (acc ++ [m]) fa d hrest]
        have h1 : (m.type != "v" && m.type != "all") = true := by simp [hv, ha]
        have h2 : (m.type == "all") = false := by simp [ha]
        simp [List.filter_cons, h1, h2]

/-- With no `redirect` mechanism at this level, the loop always runs to
completion, and the recorded `all` is the last `all`-typed mechanism of
the level itself (sub-results of includes never touch it). -/
theorem flattenLoop_no_redirect_fa (R : DnsResolver) (rc) :
    ∀ (ms acc : List Mechanism) (fa : Option Mechanism) (d : Nat),
      (∀ m ∈ ms, m.type ≠ "redirect") →
      ∃ acc' d', flattenLoop R rc ms acc fa d =
        .done acc'
          (match (ms.filter (fun m => m.type == "all")).getLast? with
            | some a => some a
            | none => fa) d' := by
  intro ms
  induction ms with
  | nil => intro acc fa d _; exact ⟨acc, d, by simp [flattenLoop_nil]⟩
  | cons m rest ih =>
    intro acc fa d hms
    have hm := hms m (List.mem_cons_self m rest)
    have hrest : ∀ m ∈ rest, m.type ≠ "redirect" :=
      fun x hx => hms x (List.mem_cons_of_mem m hx)
    by_cases hv : m.type = "v"
    · have h2 : (m.type == "all") = false := by simp [hv]
      rw [flattenLoop_v R rc m rest acc fa d hv]
      simpa [List.filter_cons, h2] using ih acc fa d hrest
    · by_cases hi : m.type = "include"
      · have h2 : (m.type == "all") = false := by simp [hi]
        rw [flattenLoop_include R rc m rest acc fa d hi]
        simpa [List.filter_cons, h2] using ih _ fa _ hrest
      · by_cases ha : m.type = "all"
        · have h2 : (m.type == "all") = true := by simp [ha]
          rw [flattenLoop_all R rc m rest acc fa d ha]
          obtain ⟨acc', d', hloop⟩ := ih acc (some m) d hrest
          refine ⟨acc', d', ?_⟩
          rw [hloop]
          rcases hY : (rest.filter (fun m => m.type == "all")).getLast? with _ | x
          · simp [List.filter_cons, h2, getLast?_cons_match, hY]
          · simp [List.filter_cons, h2, getLast?_cons_match, hY]
        · have h2 : (m.type == "all") = false := by simp [ha]
          rw [flattenLoop_plain R rc m rest acc fa d hv hm hi ha]
          simpa [List.filter_cons, h2] using ih (acc ++ [m]) fa d hrest

/-! ## Deduplication lemmas -/

theorem mem_dedupGo : ∀ (l seen : List Mechanism) (m : Mechanism),
    m ∈ dedupGo seen l ↔ m ∈ l ∧ m ∉ seen := by
  intro l
  induction l with
  | nil => intro seen m; simp [dedupGo]
  | cons x rest ih =>
    intro seen m
    by_cases hx : x ∈ seen
    · rw [dedupGo, if_pos hx, ih]
      constructor
      · rintro ⟨h1, h2⟩; exact ⟨List.mem_cons_of_mem x h1, h2⟩
      · rintro ⟨h1, h2⟩
        rcases List.mem_cons.1 h1 with h | h
        · exact absurd (h ▸ hx) h2
        · exact ⟨h, h2⟩
    · rw [dedupGo, if_neg hx]
      constructor
      · intro h
        rcases List.mem_cons.1 h with h | h
        · exact ⟨h ▸ List.mem_cons_self x rest, h ▸ hx⟩
        · have := (ih (x :: seen) m).1 h
          exact ⟨List.mem_cons_of_mem x this.1, fun hc => this.2 (List.mem_cons_of_mem x hc)⟩
      · rintro ⟨h1, h2⟩
        rcases List.mem_cons.1 h1 with h | h
        · exact h ▸ List.mem_cons_self x _
        · by_cases hm : m = x
          · exact hm ▸ List.mem_cons_self x _
          · exact List.mem_cons_of_mem x
              ((ih (x :: seen) m).2 ⟨h, by simp [hm, h2]⟩)

theorem dedupGo_sublist : ∀ (l seen : List Mechanism), (dedupGo seen l).Sublist l := by
  intro l
  induction l with
  | nil => intro seen; simp [dedupGo]
  | cons x rest ih =>
    intro seen
    by_cases hx : x ∈ seen
    · rw [dedupGo, if_pos hx]
      exact (ih seen).cons x
    · rw [dedupGo, if_neg hx]
      exact (ih (x :: seen)).cons₂ x

theorem dedupGo_nodup : ∀ (l seen : List Mechanism), (dedupGo seen l).Nodup := by
  intro l
  induction l with
  | nil => intro seen; simp [dedupGo]
  | cons x rest ih =>
    intro seen
    by_cases hx : x ∈ seen
    · rw [dedupGo, if_pos hx]; exact ih seen
    · rw [dedupGo, if_neg hx]
      refine List.nodup_cons.2 ⟨?_, ih (x :: seen)⟩
      intro hc
      exact ((mem_dedupGo rest (x :: seen) x).1 hc).2 (List.mem_cons_self x seen)

theorem dedupGo_eq_foldl : ∀ (l seen acc : List Mechanism),
    (∀ m : Mechanism, m ∈ seen ↔ m ∈ acc) →
    acc ++ dedupGo seen l = l.foldl (fun acc m => if m ∈ acc then acc else acc ++ [m]) acc := by
  intro l
  induction l with
  | nil => intro seen acc _; simp [dedupGo]
  | cons x rest ih =>
    intro seen acc hiff
    by_cases hx : x ∈ seen
    · rw [dedupGo, if_pos hx, List.foldl_cons, if_pos ((hiff x).1 hx)]
      exact ih seen acc hiff
    · rw [dedupGo, if_neg hx, List.foldl_cons, if_neg (fun hc => hx ((hiff x).2 hc))]
      have := ih (x :: seen) (acc ++ [x]) (by intro m; simp [hiff m, or_comm])
      simpa using this

theorem dedupMechanisms_eq_spec (l : List Mechanism) : dedupMechanisms l = dedupSpec l := by
  have := dedupGo_eq_foldl l [] [] (by intro m; simp)
  simpa [dedupMechanisms, dedupSpec] using this

theorem dedupGo_eq_self : ∀ (l seen : List Mechanism),
    (∀ m ∈ l, m ∉ seen) → l.Nodup → dedupGo seen l = l := by
  intro l
  induction l with
  | nil => intro seen _ _; rfl
  | cons x rest ih =>
    intro seen hdisj hnd
    rw [dedupGo, if_neg (hdisj x (List.mem_cons_self x rest))]
    congr 1
    refine ih (x :: seen) ?_ (List.nodup_cons.1 hnd).2
    intro m hm
    simp only [List.mem_cons]
    rintro (h | h)
    · exact (List.nodup_cons.1 hnd).1 (h ▸ hm)
    · exact hdisj m (List.mem_cons_of_mem x hm) h

theorem dedupMechanisms_eq_self (l : List Mechanism) (h : l.Nodup) :
    dedupMechanisms l = l :=
  dedupGo_eq_self l [] (by intro m _; simp) h

/-! ## Characterisation of a level with no `include` / `redirect` -/

theorem recursiveFlattenSpf_no_lookup (R : DnsResolver) (ms : List Mechanism)
    (dom : String) (d : Nat)
    (h : ∀ m ∈ ms, m.type ≠ "include" ∧ m.type ≠ "redirect") :
    recursiveFlattenSpf R ms dom d =
      match (ms.filter (fun m => m.type == "all")).getLast? with
      | some a =>
        ((dedupMechanisms (ms.filter (fun m => m.type != "v" && m.type != "all"))).filter
          (fun m => m.type != "all") ++ [a], d)
      | none => (dedupMechanisms (ms.filter (fun m => m.type != "v" && m.type != "all")), d) := by
  show finishLevel _ = _
  rw [flattenLoop_no_lookup R _ ms [] none d h]
  rcases hY : (ms.filter (fun m => m.type == "all")).getLast? with _ | a
  · rw [hY]
    rfl
  · rw [hY]
    rfl

/-! ## No `v` mechanism ever survives the recursive flattening -/

/-- Property of a recursion function: its flattened output carries no
`v`-typed mechanism. -/
def RecurseNoV (rc : String → List Mechanism → Nat → List Mechanism × Nat) : Prop :=
  ∀ h ms d, ∀ m ∈ (rc h ms d).1, m.type ≠ "v"

theorem includeFold_no_v (rc) (h : String) :
    ∀ (recs : List String) (acc : List Mechanism) (d : Nat),
      (∀ m ∈ acc, m.type ≠ "v") →
      ∀ m ∈ (includeFold rc h acc d recs).1, m.type ≠ "v" := by
  intro recs
  induction recs with
  | nil => intro acc d hacc; simpa [includeFold_nil] using hacc
  | cons record rest ih =>
    intro acc d hacc
    rw [includeFold_cons]
    refine ih _ _ ?_
    intro m hm
    rcases List.mem_append.1 hm with h1 | h1
    · exact hacc m h1
    · have := List.of_mem_filter h1
      simpa using this

theorem flattenLoop_no_v (R : DnsResolver) (rc) (hrc : RecurseNoV rc) :
    ∀ (ms acc : List Mechanism) (fa : Option Mechanism) (d : Nat),
      (∀ m ∈ acc, m.type ≠ "v") →
      (∀ a, fa = some a → a.type ≠ "v") →
      match flattenLoop R rc ms acc fa d with
      | .early mechs _ => ∀ m ∈ mechs, m.type ≠ "v"
      | .done acc' fa' _ => (∀ m ∈ acc', m.type ≠ "v") ∧ (∀ a, fa' = some a → a.type ≠ "v") := by
  intro ms
  induction ms with
  | nil => intro acc fa d hacc hfa; rw [flattenLoop_nil]; exact ⟨hacc, hfa⟩
  | cons m rest ih =>
    intro acc fa d hacc hfa
    by_cases hv : m.type = "v"
    · rw [flattenLoop_v R rc m rest acc fa d hv]; exact ih acc fa d hacc hfa
    · by_cases hr : m.type = "redirect"
      · rcases hrec : (resolveSpfTxtRecord R m.value d).1 with _ | ⟨record, more⟩
        · rw [flattenLoop_redirect_none R rc m rest acc fa d hr hrec]
          intro x hx
          simp at hx
        · rw [flattenLoop_redirect_some R rc m rest acc fa d record more hr hrec]
          exact hrc m.value (parseSpfCore record) (resolveSpfTxtRecord R m.value d).2
      · by_cases hi : m.type = "include"
        · rw [flattenLoop_include R rc m rest acc fa d hi]
          refine ih _ fa _ ?_ hfa
          exact includeFold_no_v rc m.value (resolveSpfTxtRecord R m.value d).1 acc
            (resolveSpfTxtRecord R m.value d).2 hacc
        · by_cases ha : m.type = "all"
          · rw [flattenLoop_all R rc m rest acc fa d ha]
            refine ih acc (some m) d hacc ?_
            intro a hs
            cases hs
            rw [ha]
            simp
          · rw [flattenLoop_plain R rc m rest acc fa d hv hr hi ha]
            refine ih (acc ++ [m]) fa d ?_ hfa
            intro x hx
            rcases List.mem_append.1 hx with h1 | h1
            · exact hacc x h1
            · rcases List.mem_singleton.1 h1 with rfl
              exact hv

theorem finishLevel_no_v (o : LoopOut)
    (ho : match o with
      | .early mechs _ => ∀ m ∈ mechs, m.type ≠ "v"
      | .done acc' fa' _ => (∀ m ∈ acc', m.type ≠ "v") ∧ (∀ a, fa' = some a → a.type ≠ "v")) :
    ∀ m ∈ (finishLevel o).1, m.type ≠ "v" := by
  cases o with
  | early mechs d => exact ho
  | done acc fa d =>
    cases fa with
    | some a =>
      intro m hm
      rcases List.mem_append.1 hm with h1 | h1
      · have h2 := List.mem_filter.1 h1
        have h3 := (mem_dedupGo acc [] m).1 h2.1
        exact ho.1 m h3.1
      · rcases List.mem_singleton.1 h1 with rfl
        exact ho.2 m rfl
    | none =>
      intro m hm
      have h3 := (mem_dedupGo acc [] m).1 hm
      exact ho.1 m h3.1

theorem recursiveFlattenSpfFuel_no_v (R : DnsResolver) :
    ∀ (fuel : Nat) (ms : List Mechanism) (dom : String) (d : Nat),
      ∀ m ∈ (recursiveFlattenSpfFuel R fuel ms dom d).1, m.type ≠ "v" := by
  intro fuel
  induction fuel with
  | zero =>
    intro ms dom d
    refine finishLevel_no_v _ ?_
    refine flattenLoop_no_v R _ ?_ ms [] none d (by simp) (by simp)
    intro h ms d m hm
    simp at hm
  | succ fuel ih =>
    intro ms dom d
    refine finishLevel_no_v _ ?_
    refine flattenLoop_no_v R _ ?_ ms [] none d (by simp) (by simp)
    intro h ms d
    exact ih ms h d

theorem recursiveFlattenSpf_no_v (R : DnsResolver) (ms : List Mechanism)
    (dom : String) (d : Nat) :
    ∀ m ∈ (recursiveFlattenSpf R ms dom d).1, m.type ≠ "v" :=
  recursiveFlattenSpfFuel_no_v R (MAX_DNS_LOOKUPS + 1) ms dom d

/-! ## `flattenSpf` and the reinstated `v=spf1` -/

theorem flattenSpf_find_none (R : DnsResolver) (l : List Mechanism) (dom : String)
    (h : ∀ m ∈ l, ¬(m.type = "v" ∧ m.value = "spf1")) :
    flattenSpf R l dom = (recursiveFlattenSpf R l dom 0).1 := by
  unfold flattenSpf
  rw [List.find?_eq_none.mpr]
  intro m hm
  have := h m hm
  simp only [Bool.and_eq_true, beq_iff_eq]
  tauto

theorem flattenSpf_find_first (R : DnsResolver) (dom : String)
    (l1 l2 : List Mechanism) (v : Mechanism)
    (hv : v.type = "v") (hs : v.value = "spf1")
    (h1 : ∀ m ∈ l1, ¬(m.type = "v" ∧ m.value = "spf1")) :
    flattenSpf R (l1 ++ v :: l2) dom =
      v :: (recursiveFlattenSpf R (l1 ++ v :: l2) dom 0).1 := by
  unfold flattenSpf
  rw [List.find?_append, List.find?_eq_none.mpr, Option.none_or]
  · rw [List.find?_cons_of_pos]
    simp [hv, hs]
  · intro m hm
    have := h1 m hm
    simp only [Bool.and_eq_true, beq_iff_eq]
    tauto

/-! ## Splitting lemmas for the parser characterisation -/

theorem splitOnPred_ne_nil (p : Char → Bool) : ∀ l : List Char, splitOnPred p l ≠ [] := by
  intro l
  cases l with
  | nil => simp [splitOnPred]
  | cons c cs =>
    rw [splitOnPred]
    by_cases h : p c
    · simp [h]
    · simp only [h, if_false, Bool.false_eq_true]
      rcases hs : splitOnPred p cs with _ | ⟨t, ts⟩
      · simp
      · simp

theorem splitOnPred_no_sep (p : Char → Bool) :
    ∀ l : List Char, (∀ c ∈ l, p c = false) → splitOnPred p l = [l] := by
  intro l
  induction l with
  | nil => intro _; rfl
  | cons c cs ih =>
    intro h
    have hc := h c (List.mem_cons_self c cs)
    have hcs := ih (fun x hx => h x (List.mem_cons_of_mem c hx))
    rw [splitOnPred, if_neg (by simp [hc]), hcs]

theorem splitOnPred_append_sep (p : Char → Bool) :
    ∀ (l1 : List Char) (s : Char) (l2 : List Char), (∀ c ∈ l1, p c = false) → p s = true →
      splitOnPred p (l1 ++ s :: l2) = l1 :: splitOnPred p l2 := by
  intro l1
  induction l1 with
  | nil => intro s l2 _ hs; simp [splitOnPred, hs]
  | cons c cs ih =>
    intro s l2 h hs
    have hc := h c (List.mem_cons_self c cs)
    rw [List.cons_append, splitOnPred, if_neg (by simp [hc]),
      ih s l2 (fun x hx => h x (List.mem_cons_of_mem c hx)) hs]

theorem joinWithChar_splitOnPred (c : Char) :
    ∀ l : List Char, joinWithChar c (splitOnPred (fun x => x == c) l) = l := by
  intro l
  induction l with
  | nil => rfl
  | cons x xs ih =>
    rcases hs : splitOnPred (fun x => x == c) xs with _ | ⟨t, ts⟩
    · exact absurd hs (splitOnPred_ne_nil _ xs)
    · rw [hs] at ih
      rw [splitOnPred]
      by_cases h : x == c
      · have hx : x = c := by simpa using h
        rw [if_pos h, hs, joinWithChar, ih, hx]
        rfl
      · rw [if_neg h, hs]
        cases ts with
        | nil =>
          rw [joinWithChar] at ih
          rw [joinWithChar, ih]
        | cons t2 ts2 =>
          rw [joinWithChar] at ih
          rw [joinWithChar, List.cons_append, ih]

theorem splitOnPred_head (p : Char → Bool) :
    ∀ l : List Char, ∃ ts, splitOnPred p l = l.takeWhile (fun c => !(p c)) :: ts := by
  intro l
  induction l with
  | nil => exact ⟨[], rfl⟩
  | cons c cs ih =>
    by_cases h : p c
    · refine ⟨splitOnPred p cs, ?_⟩
      rw [splitOnPred, if_pos h, List.takeWhile_cons]
      simp [h]
    · obtain ⟨ts, hts⟩ := ih
      refine ⟨ts, ?_⟩
      rw [splitOnPred, if_neg h, hts, List.takeWhile_cons]
      simp [h]

theorem mem_tokenize (s : String) (t : List Char) (ht : t ∈ tokenize s) :
    t ≠ [] ∧ ∀ c ∈ t, isJsWhitespace c = false := by
  have h1 := List.mem_filter.1 ht
  constructor
  · intro hc
    rw [hc] at h1
    simp at h1
  · intro c hc
    -- a segment produced by splitOnPred contains no separator character
    have : ∀ (l : List Char) (seg : List Char), seg ∈ splitOnPred isJsWhitespace l →
        ∀ c ∈ seg, isJsWhitespace c = false := by
      intro l
      induction l with
      | nil =>
        intro seg hseg c hc
        simp [splitOnPred] at hseg
        subst hseg
        simp at hc
      | cons x xs ih =>
        intro seg hseg c hc
        rw [splitOnPred] at hseg
        by_cases hx : isJsWhitespace x
        · rw [if_pos hx] at hseg
          rcases List.mem_cons.1 hseg with h | h
          · subst h; simp at hc
          · exact ih seg h c hc
        · rw [if_neg hx] at hseg
          rcases hs : splitOnPred isJsWhitespace xs with _ | ⟨u, us⟩
          · exact absurd hs (splitOnPred_ne_nil _ xs)
          · rw [hs] at hseg
            rcases List.mem_cons.1 hseg with h | h
            · subst h
              rcases List.mem_cons.1 hc with h | h
              · subst h; simpa using hx
              · exact ih u (by rw [hs]; exact List.mem_cons_self u us) c h
            · exact ih seg (by rw [hs]; exact List.mem_cons_of_mem u h) c hc
    exact this s.data t h1.1 c hc

/-! ## Parser rule characterisation -/

theorem parseMechanism_cons_qual (c : Char) (cs : List Char) (h : c ∈ qualifierChars) :
    parseMechanism (c :: cs) = { parseMechanism ('+' :: cs) with qualifier := c } := by
  have hplus : ('+' : Char) ∈ qualifierChars := by decide
  rcases h1 : splitOnPred (fun x => x == ':') cs with _ | ⟨t, ts⟩
  · exact absurd h1 (splitOnPred_ne_nil _ cs)
  · cases ts with
    | cons v vs => simp [parseMechanism, h, hplus, h1]
    | nil =>
      rcases h2 : splitOnPred (fun x => x == '=') cs with _ | ⟨t2, ts2⟩
      · exact absurd h2 (splitOnPred_ne_nil _ cs)
      · cases ts2 with
        | cons v2 vs2 => simp [parseMechanism, h, hplus, h1, h2]
        | nil =>
          by_cases h3 : String.mk cs = "all"
          · simp [parseMechanism, h, hplus, h1, h2, h3]
          · simp [parseMechanism, h, hplus, h1, h2, h3]

theorem parseMechanism_cons_noqual (c : Char) (cs : List Char) (h : c ∉ qualifierChars) :
    parseMechanism (c :: cs) = parseMechanism ('+' :: c :: cs) := by
  have hplus : ('+' : Char) ∈ qualifierChars := by decide
  simp [parseMechanism, h, hplus]

theorem parseMechanism_colon (t v : List Char) (ht : ∀ c ∈ t, c ≠ ':') :
    parseMechanism ('+' :: (t ++ ':' :: v)) =
      { qualifier := '+', type := String.mk t, value := String.mk v } := by
  have hplus : ('+' : Char) ∈ qualifierChars := by decide
  have hsplit : splitOnPred (fun x => x == ':') (t ++ ':' :: v) =
      t :: splitOnPred (fun x => x == ':') v :=
    splitOnPred_append_sep _ t ':' v (by intro c hc; simpa using ht c hc) (by simp)
  rcases hv : splitOnPred (fun x => x == ':') v with _ | ⟨v0, vs⟩
  · exact absurd hv (splitOnPred_ne_nil _ v)
  · have hjoin := joinWithChar_splitOnPred ':' v
    rw [hv] at hjoin
    rw [hv] at hsplit
    simp [parseMechanism, hplus, hsplit, hjoin]

theorem parseMechanism_equals (t v : List Char)
    (hnc : ∀ c ∈ t ++ '=' :: v, c ≠ ':') (ht : ∀ c ∈ t, c ≠ '=') :
    parseMechanism ('+' :: (t ++ '=' :: v)) =
      { qualifier := '+', type := String.mk t,
        value := String.mk (v.takeWhile (fun c => !(c == '='))) } := by
  have hplus : ('+' : Char) ∈ qualifierChars := by decide
  have h1 : splitOnPred (fun x => x == ':') (t ++ '=' :: v) = [t ++ '=' :: v] :=
    splitOnPred_no_sep _ _ (by intro c hc; simpa using hnc c hc)
  have h2 : splitOnPred (fun x => x == '=') (t ++ '=' :: v) =
      t :: splitOnPred (fun x => x == '=') v :=
    splitOnPred_append_sep _ t '=' v (by intro c hc; simpa using ht c hc) (by simp)
  obtain ⟨ts, hts⟩ := splitOnPred_head (fun x => x == '=') v
  rw [hts] at h2
  simp [parseMechanism, hplus, h1, h2]

theorem parseMechanism_bare (body : List Char) (h : ∀ c ∈ body, c ≠ ':' ∧ c ≠ '=') :
    parseMechanism ('+' :: body) =
      { qualifier := '+', type := String.mk body,
        value := if String.mk body = "all" then "all" else "" } := by
  have hplus : ('+' : Char) ∈ qualifierChars := by decide
  have h1 : splitOnPred (fun x => x == ':') body = [body] :=
    splitOnPred_no_sep _ _ (by intro c hc; simpa using (h c hc).1)
  have h2 : splitOnPred (fun x => x == '=') body = [body] :=
    splitOnPred_no_sep _ _ (by intro c hc; simpa using (h c hc).2)
  by_cases h3 : String.mk body = "all"
  · simp [parseMechanism, hplus, h1, h2, h3]
  · simp [parseMechanism, hplus, h1, h2, h3]

theorem parseSpf_ok (s : String) (h : s ≠ "") :
    parseSpf s = .ok ((tokenize s).map parseMechanism) := by
  simp [parseSpf, h, parseSpfCore]

/-! ## Claim theorems -/

/-- C1: for every resolver and record graph (cyclic or wide), one
top-level flatten never exceeds 10 DNS TXT lookups: the threaded counter
never decreases, never passes `max initial 10` (so a flatten started at
0 performs at most 10 lookups in total), and once the counter is at or
above the ceiling `resolveSpfTxtRecord` returns no records without
incrementing and without consulting the resolver at all. -/
theorem claim_C1_budget_bound :
    (∀ (R : DnsResolver) (h : String) (d : Nat), MAX_DNS_LOOKUPS ≤ d →
      resolveSpfTxtRecord R h d = ([], d)) ∧
    (∀ (R R' : DnsResolver) (h : String) (d : Nat), MAX_DNS_LOOKUPS ≤ d →
      resolveSpfTxtRecord R h d = resolveSpfTxtRecord R' h d) ∧
    (∀ (R : DnsResolver) (ms : List Mechanism) (dom : String) (d : Nat),
      d ≤ (recursiveFlattenSpf R ms dom d).2 ∧
      (recursiveFlattenSpf R ms dom d).2 ≤ max d MAX_DNS_LOOKUPS) ∧
    (∀ (R : DnsResolver) (ms : List Mechanism) (dom : String),
      (recursiveFlattenSpf R ms dom 0).2 ≤ MAX_DNS_LOOKUPS) := by
  refine ⟨resolve_saturated, resolve_resolver_irrelevant, recursiveFlattenSpf_bounds, ?_⟩
  intro R ms dom
  have := (recursiveFlattenSpf_bounds R ms dom 0).2
  simpa using this

/-- Witness for C1 at concrete inputs, including a cyclic include graph
(`loop.com` includes itself): the saturated resolver call issues nothing,
and the flatten of the cyclic graph stays within the ceiling. -/
theorem claim_C1_budget_bound_witness :
    resolveSpfTxtRecord failingResolver "error.com" 10 = ([], 10) ∧
    resolveSpfTxtRecord resolverTwoAlls "a.com" 12 =
      resolveSpfTxtRecord failingResolver "a.com" 12 ∧
    (recursiveFlattenSpf cyclicResolver (parseSpfCore "v=spf1 include:loop.com")
      "loop.com" 0).2 ≤ MAX_DNS_LOOKUPS :=
  ⟨claim_C1_budget_bound.1 failingResolver "error.com" 10 (by decide),
   claim_C1_budget_bound.2.1 resolverTwoAlls failingResolver "a.com" 12 (by decide),
   claim_C1_budget_bound.2.2.2 cyclicResolver
     (parseSpfCore "v=spf1 include:loop.com") "loop.com"⟩

/-- C8: each recursion level deduplicates its accumulator by structural
identity, keeping the first occurrence and preserving relative order
(`dedupMechanisms` equals the left fold the specification describes, is
a sublist of its input — hence order preserving — has no duplicates, and
keeps exactly the members of its input); flattening
`v=spf1 ip4:1.2.3.4 include:included.com ~all` where `included.com`
resolves to `v=spf1 ip4:1.2.3.4` yields a single `ip4:1.2.3.4` entry and
consumes exactly one DNS lookup. -/
theorem claim_C8_dedup :
    (∀ l : List Mechanism, dedupMechanisms l = dedupSpec l) ∧
    (∀ l : List Mechanism, (dedupMechanisms l).Sublist l) ∧
    (∀ l : List Mechanism, (dedupMechanisms l).Nodup) ∧
    (∀ (l : List Mechanism) (m : Mechanism), m ∈ dedupMechanisms l ↔ m ∈ l) ∧
    recursiveFlattenSpf resolverIncludedDup
        (parseSpfCore "v=spf1 ip4:1.2.3.4 include:included.com ~all") "example.com" 0 =
      ([{ qualifier := '+', type := "ip4", value := "1.2.3.4" },
        { qualifier := '~', type := "all", value := "all" }], 1) ∧
    flattenSpf resolverIncludedDup
        (parseSpfCore "v=spf1 ip4:1.2.3.4 include:included.com ~all") "example.com" =
      [{ qualifier := '+', type := "v", value := "spf1" },
       { qualifier := '+', type := "ip4", value := "1.2.3.4" },
       { qualifier := '~', type := "all", value := "all" }] := by
  refine ⟨dedupMechanisms_eq_spec, fun l => dedupGo_sublist l [],
    fun l => dedupGo_nodup l [], ?_, by decide, by decide⟩
  intro l m
  rw [dedupMechanisms, mem_dedupGo]
  simp

/-- C9: with an outer record carrying no literal `all` and two included
branches carrying differently-qualified `all` mechanisms, the flattened
output contains two `all`-typed mechanisms, and the last mechanism is not
`all`-typed: the merge only removes structurally identical duplicates. -/
theorem claim_C9_multiple_alls :
    flattenSpf resolverTwoAlls
        (parseSpfCore "v=spf1 include:a.com include:b.com ip4:9.9.9.9") "example.com" =
      [{ qualifier := '+', type := "v", value := "spf1" },
       { qualifier := '-', type := "all", value := "all" },
       { qualifier := '~', type := "all", value := "all" },
       { qualifier := '+', type := "ip4", value := "9.9.9.9" }] ∧
    2 ≤ ((flattenSpf resolverTwoAlls
        (parseSpfCore "v=spf1 include:a.com include:b.com ip4:9.9.9.9") "example.com").filter
      (fun m => m.type == "all")).length ∧
    (flattenSpf resolverTwoAlls
        (parseSpfCore "v=spf1 include:a.com include:b.com ip4:9.9.9.9") "example.com").getLast? =
      some { qualifier := '+', type := "ip4", value := "9.9.9.9" } ∧
    ({ qualifier := '+', type := "ip4", value := "9.9.9.9" } : Mechanism).type ≠ "all" := by
  refine ⟨by decide, by decide, by decide, by decide⟩

/-- C5: a rejected DNS query is absorbed: below the ceiling,
`resolveSpfTxtRecord` returns no records and still increments the budget
by exactly one; the include loop then continues with the remaining
mechanisms; `v=spf1 include:error.com ~all` with a failing lookup
flattens to `[v=spf1, ~all]` with one lookup consumed (the embedding is
total, so no failure ever escapes the flatten call). -/
theorem claim_C5_error_absorption :
    (∀ (R : DnsResolver) (h : String) (d : Nat) (e : String),
      R h = .error e → d < MAX_DNS_LOOKUPS →
      resolveSpfTxtRecord R h d = ([], d + 1)) ∧
    (∀ (R : DnsResolver) (rc) (m : Mechanism) (rest acc : List Mechanism)
       (fa : Option Mechanism) (d : Nat) (e : String),
      m.type = "include" → R m.value = .error e → d < MAX_DNS_LOOKUPS →
      flattenLoop R rc (m :: rest) acc fa d = flattenLoop R rc rest acc fa (d + 1)) ∧
    flattenSpf failingResolver (parseSpfCore "v=spf1 include:error.com ~all") "example.com" =
      [{ qualifier := '+', type := "v", value := "spf1" },
       { qualifier := '~', type := "all", value := "all" }] ∧
    (recursiveFlattenSpf failingResolver (parseSpfCore "v=spf1 include:error.com ~all")
      "example.com" 0).2 = 1 := by
  refine ⟨fun R h d e he hd => resolve_error R h d e he hd, ?_, by decide, by decide⟩
  intro R rc m rest acc fa d e hm he hd
  rw [flattenLoop_include R rc m rest acc fa d hm, resolve_error R m.value d e he hd,
    includeFold_nil]

/-- Witness for C5: a failing lookup at budget 0 yields no records and
budget 1; an include of a failing hostname steps the loop to the rest of
the mechanisms with budget 1. -/
theorem claim_C5_error_absorption_witness :
    resolveSpfTxtRecord failingResolver "error.com" 0 = ([], 1) ∧
    flattenLoop failingResolver (fun _ _ d2 => ([], d2))
        [{ qualifier := '+', type := "include", value := "error.com" }] [] none 0 =
      flattenLoop failingResolver (fun _ _ d2 => ([], d2)) [] [] none 1 :=
  ⟨claim_C5_error_absorption.1 failingResolver "error.com" 0 "ENOTFOUND" rfl (by decide),
   claim_C5_error_absorption.2.1 failingResolver (fun _ _ d2 => ([], d2))
     { qualifier := '+', type := "include", value := "error.com" } [] [] none 0 "ENOTFOUND"
     rfl rfl (by decide)⟩

/-- C6 counterexample: the record `v=spf2 a` contains a `v`-typed
mechanism, yet `flattenSpf` reinstates nothing (the code reinstates only
a `v` mechanism whose value is exactly `spf1`), so the claim's
"whenever the original parsed record contains a v mechanism" fails. -/
theorem claim_C6_v_counterexample :
    parseSpfCore "v=spf2 a" =
      [{ qualifier := '+', type := "v", value := "spf2" },
       { qualifier := '+', type := "a", value := "" }] ∧
    flattenSpf failingResolver (parseSpfCore "v=spf2 a") "example.com" =
      [{ qualifier := '+', type := "a", value := "" }] := by
  decide

/-- C6 (amended): `v`-typed mechanisms are dropped at every recursion
level (the recursive result never contains one), and `flattenSpf`
reinstates at the very front exactly the first mechanism of the original
record whose type is `v` *and whose value is `spf1`*, whenever such a
mechanism exists; when none exists nothing is reinstated. -/
theorem claim_C6_v_reinstatement :
    (∀ (R : DnsResolver) (ms : List Mechanism) (dom : String) (d : Nat),
      ∀ m ∈ (recursiveFlattenSpf R ms dom d).1, m.type ≠ "v") ∧
    (∀ (R : DnsResolver) (dom : String) (l1 l2 : List Mechanism) (v : Mechanism),
      v.type = "v" → v.value = "spf1" →
      (∀ m ∈ l1, ¬(m.type = "v" ∧ m.value = "spf1")) →
      flattenSpf R (l1 ++ v :: l2) dom =
        v :: (recursiveFlattenSpf R (l1 ++ v :: l2) dom 0).1) ∧
    (∀ (R : DnsResolver) (l : List Mechanism) (dom : String),
      (∀ m ∈ l, ¬(m.type = "v" ∧ m.value = "spf1")) →
      flattenSpf R l dom = (recursiveFlattenSpf R l dom 0).1) :=
  ⟨recursiveFlattenSpf_no_v,
   fun R dom l1 l2 v hv hs h1 => flattenSpf_find_first R dom l1 l2 v hv hs h1,
   flattenSpf_find_none⟩

/-- Witness for C6 at concrete records: `v=spf1 a` reinstates the leading
`v=spf1`; a record with no `v=spf1` reinstates nothing. -/
theorem claim_C6_v_reinstatement_witness :
    flattenSpf failingResolver
        ([] ++ { qualifier := '+', type := "v", value := "spf1" } ::
          [{ qualifier := '+', type := "a", value := "" }]) "example.com" =
      { qualifier := '+', type := "v", value := "spf1" } ::
        (recursiveFlattenSpf failingResolver
          ([] ++ { qualifier := '+', type := "v", value := "spf1" } ::
            [{ qualifier := '+', type := "a", value := "" }]) "example.com" 0).1 ∧
    flattenSpf failingResolver [{ qualifier := '+', type := "a", value := "" }] "example.com" =
      (recursiveFlattenSpf failingResolver
        [{ qualifier := '+', type := "a", value := "" }] "example.com" 0).1 :=
  ⟨claim_C6_v_reinstatement.2.1 failingResolver "example.com" []
     [{ qualifier := '+', type := "a", value := "" }]
     { qualifier := '+', type := "v", value := "spf1" } rfl rfl (by decide),
   claim_C6_v_reinstatement.2.2 failingResolver
     [{ qualifier := '+', type := "a", value := "" }] "example.com" (by decide)⟩

/-- C7 counterexample: the claim's rule (2) demands that for a token
containing `=` (and no `:`) the value be *everything* after the first
`=`; on `a=b=c` the code instead yields only the segment `b` between the
first and second `=` (JavaScript `split('=')[1]`). -/
theorem claim_C7_parse_counterexample :
    parseSpf "a=b=c" = .ok [{ qualifier := '+', type := "a", value := "b" }] ∧
    ({ qualifier := '+', type := "a", value := "b" } : Mechanism) ≠
      { qualifier := '+', type := "a", value := "b=c" } := by
  exact ⟨by rfl, by decide⟩

/-- C7 (amended): `parseSpf` is total on non-empty strings, tokenises on
whitespace runs discarding empty tokens (the k-th token maps to the k-th
mechanism), strips a leading qualifier in `{+,-,~,?}` (default `+`), and
extracts type/value by: (1) first `:` splits, value is everything after
it; (2) otherwise first `=` splits, value is only the segment up to the
next `=` (not everything after, as the original claim stated); (3)
otherwise the remainder is the type with empty value, except that type
`all` forces value `all`. -/
theorem claim_C7_parse_rules :
    (∀ s : String, s ≠ "" → parseSpf s = .ok ((tokenize s).map parseMechanism)) ∧
    (∀ (s : String) (t : List Char), t ∈ tokenize s →
      t ≠ [] ∧ ∀ c ∈ t, isJsWhitespace c = false) ∧
    (∀ (c : Char) (cs : List Char), c ∈ qualifierChars →
      parseMechanism (c :: cs) = { parseMechanism ('+' :: cs) with qualifier := c }) ∧
    (∀ (c : Char) (cs : List Char), c ∉ qualifierChars →
      parseMechanism (c :: cs) = parseMechanism ('+' :: c :: cs)) ∧
    (∀ t v : List Char, (∀ c ∈ t, c ≠ ':') →
      parseMechanism ('+' :: (t ++ ':' :: v)) =
        { qualifier := '+', type := String.mk t, value := String.mk v }) ∧
    (∀ t v : List Char, (∀ c ∈ t ++ '=' :: v, c ≠ ':') → (∀ c ∈ t, c ≠ '=') →
      parseMechanism ('+' :: (t ++ '=' :: v)) =
        { qualifier := '+', type := String.mk t,
          value := String.mk (v.takeWhile (fun c => !(c == '='))) }) ∧
    (∀ body : List Char, (∀ c ∈ body, c ≠ ':' ∧ c ≠ '=') →
      parseMechanism ('+' :: body) =
        { qualifier := '+', type := String.mk body,
          value := if String.mk body = "all" then "all" else "" }) :=
  ⟨parseSpf_ok, mem_tokenize, parseMechanism_cons_qual, parseMechanism_cons_noqual,
   parseMechanism_colon, parseMechanism_equals, parseMechanism_bare⟩

/-- Witness for C7 at concrete tokens: totality on a concrete record,
tokens of it are whitespace-free, qualifier stripping on `~all`,
defaulting on `ip4:...`, the `:` rule, the (amended) `=` rule on
`a=b=c`, and the bare rule on `all`. -/
theorem claim_C7_parse_rules_witness :
    parseSpf "v=spf1 ip4:1.2.3.4" = .ok ((tokenize "v=spf1 ip4:1.2.3.4").map parseMechanism) ∧
    "v=spf1".data ≠ [] ∧
    parseMechanism ('~' :: "all".data) =
      { parseMechanism ('+' :: "all".data) with qualifier := '~' } ∧
    parseMechanism ('i' :: "p4".data) = parseMechanism ('+' :: 'i' :: "p4".data) ∧
    parseMechanism ('+' :: ("ip4".data ++ ':' :: "1.2.3.4".data)) =
      { qualifier := '+', type := String.mk "ip4".data,
        value := String.mk "1.2.3.4".data } ∧
    parseMechanism ('+' :: ("a".data ++ '=' :: "b=c".data)) =
      { qualifier := '+', type := String.mk "a".data,
        value := String.mk ("b=c".data.takeWhile (fun c => !(c == '='))) } ∧
    parseMechanism ('+' :: "all".data) =
      { qualifier := '+', type := String.mk "all".data,
        value := if String.mk "all".data = "all" then "all" else "" } :=
  ⟨claim_C7_parse_rules.1 "v=spf1 ip4:1.2.3.4" (by decide),
   (claim_C7_parse_rules.2.1 "v=spf1 ip4:1.2.3.4" "v=spf1".data (by decide)).1,
   claim_C7_parse_rules.2.2.1 '~' "all".data (by decide),
   claim_C7_parse_rules.2.2.2.1 'i' "p4".data (by decide),
   claim_C7_parse_rules.2.2.2.2.1 "ip4".data "1.2.3.4".data (by decide),
   claim_C7_parse_rules.2.2.2.2.2.1 "a".data "b=c".data (by decide) (by decide),
   claim_C7_parse_rules.2.2.2.2.2.2 "all".data (by decide)⟩

/-! ## Redirect semantics -/

theorem recursiveFlattenSpf_unfold (R : DnsResolver) (ms : List Mechanism)
    (dom : String) (d : Nat) :
    recursiveFlattenSpf R ms dom d =
      finishLevel (flattenLoop R
        (fun h sub d2 => recursiveFlattenSpfFuel R MAX_DNS_LOOKUPS sub h d2) ms [] none d) :=
  rfl

theorem flattenLoop_append_done (R : DnsResolver) (rc)
    (ms1 ms2 acc : List Mechanism) (fa : Option Mechanism) (d : Nat)
    (acc' : List Mechanism) (fa' : Option Mechanism) (d' : Nat)
    (h : flattenLoop R rc ms1 acc fa d = .done acc' fa' d') :
    flattenLoop R rc (ms1 ++ ms2) acc fa d = flattenLoop R rc ms2 acc' fa' d' := by
  rw [flattenLoop_append, h]

theorem flattenLoop_redirect_state_irrelevant (R : DnsResolver) (rc) (m : Mechanism)
    (post acc acc2 : List Mechanism) (fa fa2 : Option Mechanism) (d : Nat)
    (hm : m.type = "redirect") :
    flattenLoop R rc (m :: post) acc fa d = flattenLoop R rc (m :: post) acc2 fa2 d := by
  rcases hrec : (resolveSpfTxtRecord R m.value d).1 with _ | ⟨record, more⟩
  · rw [flattenLoop_redirect_none R rc m post acc fa d hm hrec,
      flattenLoop_redirect_none R rc m post acc2 fa2 d hm hrec]
  · rw [flattenLoop_redirect_some R rc m post acc fa d record more hm hrec,
      flattenLoop_redirect_some R rc m post acc2 fa2 d record more hm hrec]

/-- C2: when a redirect mechanism is reached (after any lookup-free
prefix) and its target resolves to at least one SPF-formatted TXT
record, the flattener parses the first such record, recurses into it
with the same shared budget (as incremented by the redirect's own
lookup), and returns that sub-result as the whole level's result — no
mechanism after the redirect is processed; flattening
`v=spf1 redirect=redirected.com` where the target resolves to
`v=spf1 ip4:9.10.11.12 ?all` yields exactly `[v=spf1, ip4:9.10.11.12, ?all]`. -/
theorem claim_C2_redirect_replaces :
    (∀ (R : DnsResolver) (m : Mechanism) (pre post : List Mechanism)
       (dom : String) (d : Nat) (record : String) (more : List String),
      m.type = "redirect" →
      (∀ x ∈ pre, x.type ≠ "include" ∧ x.type ≠ "redirect") →
      (resolveSpfTxtRecord R m.value d).1 = record :: more →
      recursiveFlattenSpf R (pre ++ m :: post) dom d =
        recursiveFlattenSpf R (parseSpfCore record) m.value
          (resolveSpfTxtRecord R m.value d).2) ∧
    flattenSpf resolverRedirected (parseSpfCore "v=spf1 redirect=redirected.com")
        "example.com" =
      [{ qualifier := '+', type := "v", value := "spf1" },
       { qualifier := '+', type := "ip4", value := "9.10.11.12" },
       { qualifier := '?', type := "all", value := "all" }] := by
  refine ⟨?_, by decide⟩
  intro R m pre post dom d record more hm hpre hrec
  have hne := resolve_nonempty R m.value d (by rw [hrec]; simp)
  have hpre' := flattenLoop_no_lookup R
    (fun h sub d2 => recursiveFlattenSpfFuel R MAX_DNS_LOOKUPS sub h d2) pre [] none d hpre
  rw [recursiveFlattenSpf_unfold,
    flattenLoop_append_done R _ pre (m :: post) [] none d _ _ _ hpre',
    flattenLoop_redirect_some R _ m post _ _ d record more hm hrec,
    ← recursiveFlattenSpfFuel_eq R MAX_DNS_LOOKUPS (parseSpfCore record) m.value m.value
      (resolveSpfTxtRecord R m.value d).2 (by omega)]
  rfl

/-- Witness for C2: with the prefix `v=spf1` before the redirect, the
flatten of `v=spf1 redirect=redirected.com` at budget 0 equals the
flatten of the redirect target's record at budget 1. -/
theorem claim_C2_redirect_replaces_witness :
    recursiveFlattenSpf resolverRedirected
        ([{ qualifier := '+', type := "v", value := "spf1" }] ++
          { qualifier := '+', type := "redirect", value := "redirected.com" } :: [])
        "example.com" 0 =
      recursiveFlattenSpf resolverRedirected
        (parseSpfCore "v=spf1 ip4:9.10.11.12 ?all") "redirected.com"
        (resolveSpfTxtRecord resolverRedirected "redirected.com" 0).2 :=
  claim_C2_redirect_replaces.1 resolverRedirected
    { qualifier := '+', type := "redirect", value := "redirected.com" }
    [{ qualifier := '+', type := "v", value := "spf1" }] [] "example.com" 0
    "v=spf1 ip4:9.10.11.12 ?all" [] rfl (by decide) (by decide)

/-- C10: mechanisms accumulated before a redirect (including any
observed `all`) are discarded entirely: with a lookup-free prefix, the
level's result is whatever the redirect branch produces, identical to
flattening the record that starts at the redirect; and when the redirect
target yields no SPF records the level returns the empty sequence with
the budget as updated by the redirect's lookup — in both cases no
deduplication or all-precedence pass touches the pre-redirect
accumulator. -/
theorem claim_C10_redirect_discards_pre :
    (∀ (R : DnsResolver) (m : Mechanism) (pre post : List Mechanism)
       (dom : String) (d : Nat),
      m.type = "redirect" →
      (∀ x ∈ pre, x.type ≠ "include" ∧ x.type ≠ "redirect") →
      recursiveFlattenSpf R (pre ++ m :: post) dom d =
        recursiveFlattenSpf R (m :: post) dom d) ∧
    (∀ (R : DnsResolver) (m : Mechanism) (pre post : List Mechanism)
       (dom : String) (d : Nat),
      m.type = "redirect" →
      (∀ x ∈ pre, x.type ≠ "include" ∧ x.type ≠ "redirect") →
      (resolveSpfTxtRecord R m.value d).1 = [] →
      recursiveFlattenSpf R (pre ++ m :: post) dom d =
        ([], (resolveSpfTxtRecord R m.value d).2)) := by
  constructor
  · intro R m pre post dom d hm hpre
    have hpre' := flattenLoop_no_lookup R
      (fun h sub d2 => recursiveFlattenSpfFuel R MAX_DNS_LOOKUPS sub h d2) pre [] none d hpre
    rw [recursiveFlattenSpf_unfold,
      flattenLoop_append_done R _ pre (m :: post) [] none d _ _ _ hpre',
      recursiveFlattenSpf_unfold]
    exact congrArg finishLevel
      (flattenLoop_redirect_state_irrelevant R _ m post _ [] _ none d hm)
  · intro R m pre post dom d hm hpre hrec
    have hpre' := flattenLoop_no_lookup R
      (fun h sub d2 => recursiveFlattenSpfFuel R MAX_DNS_LOOKUPS sub h d2) pre [] none d hpre
    rw [recursiveFlattenSpf_unfold,
      flattenLoop_append_done R _ pre (m :: post) [] none d _ _ _ hpre',
      flattenLoop_redirect_none R _ m post _ _ d hm hrec]
    rfl

/-- Witness for C10: a pre-redirect `~all` and `ip4` are discarded; with
an unresolvable target the level flattens to the empty sequence with one
lookup consumed. -/
theorem claim_C10_redirect_discards_pre_witness :
    recursiveFlattenSpf failingResolver
        ([{ qualifier := '+', type := "ip4", value := "1.2.3.4" },
          { qualifier := '~', type := "all", value := "all" }] ++
          { qualifier := '+', type := "redirect", value := "gone.com" } :: [])
        "example.com" 0 =
      recursiveFlattenSpf failingResolver
        ({ qualifier := '+', type := "redirect", value := "gone.com" } :: [])
        "example.com" 0 ∧
    recursiveFlattenSpf failingResolver
        ([{ qualifier := '+', type := "ip4", value := "1.2.3.4" },
          { qualifier := '~', type := "all", value := "all" }] ++
          { qualifier := '+', type := "redirect", value := "gone.com" } :: [])
        "example.com" 0 =
      ([], (resolveSpfTxtRecord failingResolver "gone.com" 0).2) :=
  ⟨claim_C10_redirect_discards_pre.1 failingResolver
    { qualifier := '+', type := "redirect", value := "gone.com" }
    [{ qualifier := '+', type := "ip4", value := "1.2.3.4" },
     { qualifier := '~', type := "all", value := "all" }] [] "example.com" 0
    rfl (by decide),
   claim_C10_redirect_discards_pre.2 failingResolver
    { qualifier := '+', type := "redirect", value := "gone.com" }
    [{ qualifier := '+', type := "ip4", value := "1.2.3.4" },
     { qualifier := '~', type := "all", value := "all" }] [] "example.com" 0
    rfl (by decide) (by decide)⟩

/-- C3: at a recursion level that runs to completion (no redirect), if
the level contains its own literal `all` mechanism, then every `all`-typed
mechanism that arrived from included sub-results is stripped and the
level's own (last) `all` ends up as the final element — no other element
of the result is `all`-typed; an outer `~all` wins over an included
`-all`, and with no outer `all` the included `-all` survives as the
trailing mechanism. -/
theorem claim_C3_all_precedence :
    (∀ (R : DnsResolver) (ms : List Mechanism) (dom : String) (d : Nat) (a : Mechanism),
      (∀ m ∈ ms, m.type ≠ "redirect") →
      (ms.filter (fun m => m.type == "all")).getLast? = some a →
      (recursiveFlattenSpf R ms dom d).1.getLast? = some a ∧
      ∀ m ∈ (recursiveFlattenSpf R ms dom d).1.dropLast, m.type ≠ "all") ∧
    flattenSpf resolverIncludedAll (parseSpfCore "v=spf1 include:included.com ~all")
        "example.com" =
      [{ qualifier := '+', type := "v", value := "spf1" },
       { qualifier := '+', type := "ip4", value := "1.2.3.4" },
       { qualifier := '~', type := "all", value := "all" }] ∧
    flattenSpf resolverIncludedAll (parseSpfCore "v=spf1 include:included.com")
        "example.com" =
      [{ qualifier := '+', type := "v", value := "spf1" },
       { qualifier := '+', type := "ip4", value := "1.2.3.4" },
       { qualifier := '-', type := "all", value := "all" }] := by
  refine ⟨?_, by decide, by decide⟩
  intro R ms dom d a hnr hlast
  obtain ⟨acc', d', hloop⟩ := flattenLoop_no_redirect_fa R
    (fun h sub d2 => recursiveFlattenSpfFuel R MAX_DNS_LOOKUPS sub h d2) ms [] none d hnr
  rw [hlast] at hloop
  have hres : recursiveFlattenSpf R ms dom d =
      ((dedupMechanisms acc').filter (fun m => m.type != "all") ++ [a], d') := by
    rw [recursiveFlattenSpf_unfold, hloop]
    rfl
  constructor
  · rw [hres]
    exact List.getLast?_concat _
  · rw [hres]
    intro m hm
    simp only [List.dropLast_concat] at hm
    have := (List.mem_filter.1 hm).2
    simpa using this

/-- Witness for C3: flattening the outer record with its own `~all` over
an included `-all` leaves the outer `~all` as the final element. -/
theorem claim_C3_all_precedence_witness :
    (recursiveFlattenSpf resolverIncludedAll
        (parseSpfCore "v=spf1 include:included.com ~all") "example.com" 0).1.getLast? =
      some { qualifier := '~', type := "all", value := "all" } :=
  (claim_C3_all_precedence.1 resolverIncludedAll
    (parseSpfCore "v=spf1 include:included.com ~all") "example.com" 0
    { qualifier := '~', type := "all", value := "all" } (by decide) (by decide)).1

/-- C4 counterexample: `v=spf1 a a` contains no include and no redirect,
yet flattening deduplicates the repeated `a` mechanism, so the flattened
sequence differs from the parsed one. -/
theorem claim_C4_idempotence_counterexample :
    (parseSpfCore "v=spf1 a a").filter
      (fun m => m.type == "include" || m.type == "redirect") = [] ∧
    flattenSpf failingResolver (parseSpfCore "v=spf1 a a") "example.com" ≠
      parseSpfCore "v=spf1 a a" := by
  decide

/-- C4 (amended): for a record with no include and no redirect whose
parsed form is a well-formed SPF shape — an optional leading `v=spf1`,
then duplicate-free mechanisms that are not `v`/`all`/`include`/`redirect`,
then an optional final `all` — flattening returns the parsed sequence
unchanged and issues zero DNS lookups (the recursive step's returned
count equals the initial 0).  (The original claim fails for records with
duplicates, a non-final or repeated `all`, or stray `v` mechanisms.) -/
theorem claim_C4_idempotence_amended :
    ∀ (R : DnsResolver) (s dom : String) (l1 mid l3 : List Mechanism),
      parseSpfCore s = l1 ++ mid ++ l3 →
      (l1 = [] ∨ ∃ q : Char, l1 = [{ qualifier := q, type := "v", value := "spf1" }]) →
      (∀ m ∈ mid, m.type ≠ "v" ∧ m.type ≠ "all" ∧ m.type ≠ "include" ∧ m.type ≠ "redirect") →
      mid.Nodup →
      (l3 = [] ∨ ∃ a : Mechanism, l3 = [a] ∧ a.type = "all") →
      flattenSpf R (parseSpfCore s) dom = parseSpfCore s ∧
      (recursiveFlattenSpf R (parseSpfCore s) dom 0).2 = 0 := by
  intro R s dom l1 mid l3 hparse h1 hmid hnd h3
  rw [hparse]
  have hmid' : ∀ m ∈ mid, ¬(m.type = "v" ∧ m.value = "spf1") := by
    intro m hm hc
    exact (hmid m hm).1 hc.1
  have hplainmid : mid.filter (fun m => m.type != "v" && m.type != "all") = mid := by
    refine List.filter_eq_self.mpr ?_
    intro m hm
    have := hmid m hm
    simp [this.1, this.2.1]
  have hallmid : mid.filter (fun m => m.type == "all") = [] := by
    refine List.filter_eq_nil_iff.mpr ?_
    intro m hm
    have := hmid m hm
    simp [this.2.1]
  have hnoallmid : mid.filter (fun m => m.type != "all") = mid := by
    refine List.filter_eq_self.mpr ?_
    intro m hm
    have := hmid m hm
    simp [this.2.1]
  rcases h1 with rfl | ⟨q, rfl⟩ <;> rcases h3 with rfl | ⟨a, rfl, ha⟩
  · -- no leading v, no trailing all: the record is exactly `mid`
    simp only [List.nil_append, List.append_nil]
    have hnoir : ∀ m ∈ mid, m.type ≠ "include" ∧ m.type ≠ "redirect" :=
      fun m hm => ⟨(hmid m hm).2.2.1, (hmid m hm).2.2.2⟩
    have hchar := recursiveFlattenSpf_no_lookup R mid dom 0 hnoir
    have hrec : recursiveFlattenSpf R mid dom 0 = (mid, 0) := by
      rw [hchar, hallmid, hplainmid, dedupMechanisms_eq_self mid hnd]
      rfl
    refine ⟨?_, by rw [hrec]⟩
    rw [flattenSpf_find_none R mid dom hmid', hrec]
  · -- no leading v, trailing all `a`
    simp only [List.nil_append]
    have hnoir : ∀ m ∈ mid ++ [a], m.type ≠ "include" ∧ m.type ≠ "redirect" := by
      intro m hm
      rcases List.mem_append.1 hm with hm | hm
      · exact ⟨(hmid m hm).2.2.1, (hmid m hm).2.2.2⟩
      · rcases List.mem_singleton.1 hm with rfl
        rw [ha]
        exact ⟨by decide, by decide⟩
    have hchar := recursiveFlattenSpf_no_lookup R (mid ++ [a]) dom 0 hnoir
    have hplain2 : (mid ++ [a]).filter (fun m => m.type != "v" && m.type != "all") = mid := by
      rw [List.filter_append, hplainmid]
      simp [ha]
    have hall2 : (mid ++ [a]).filter (fun m => m.type == "all") = [a] := by
      rw [List.filter_append, hallmid]
      simp [ha]
    have hrec : recursiveFlattenSpf R (mid ++ [a]) dom 0 = (mid ++ [a], 0) := by
      rw [hchar, hall2, hplain2, dedupMechanisms_eq_self mid hnd]
      simp only [List.getLast?_singleton]
      rw [hnoallmid]
    refine ⟨?_, by rw [hrec]⟩
    have hmem : ∀ m ∈ mid ++ [a], ¬(m.type = "v" ∧ m.value = "spf1") := by
      intro m hm
      rcases List.mem_append.1 hm with hm | hm
      · exact hmid' m hm
      · rcases List.mem_singleton.1 hm with rfl
        rw [ha]
        simp
    rw [flattenSpf_find_none R (mid ++ [a]) dom hmem, hrec]
  · -- leading v=spf1, no trailing all
    simp only [List.append_nil, List.singleton_append]
    have hnoir : ∀ m ∈ { qualifier := q, type := "v", value := "spf1" } :: mid,
        m.type ≠ "include" ∧ m.type ≠ "redirect" := by
      intro m hm
      rcases List.mem_cons.1 hm with rfl | hm
      · exact ⟨by simp, by simp⟩
      · exact ⟨(hmid m hm).2.2.1, (hmid m hm).2.2.2⟩
    have hchar := recursiveFlattenSpf_no_lookup R
      ({ qualifier := q, type := "v", value := "spf1" } :: mid) dom 0 hnoir
    have hc1 : List.filter (fun m => m.type == "all")
        ({ qualifier := q, type := "v", value := "spf1" } :: mid) =
        List.filter (fun m => m.type == "all") mid := rfl
    have hc2 : List.filter (fun m => m.type != "v" && m.type != "all")
        ({ qualifier := q, type := "v", value := "spf1" } :: mid) =
        List.filter (fun m => m.type != "v" && m.type != "all") mid := rfl
    have hrec : recursiveFlattenSpf R
        ({ qualifier := q, type := "v", value := "spf1" } :: mid) dom 0 = (mid, 0) := by
      rw [hchar, hc1, hallmid, hc2, hplainmid, dedupMechanisms_eq_self mid hnd]
      rfl
    refine ⟨?_, by rw [hrec]⟩
    have hf := flattenSpf_find_first R dom [] mid
      { qualifier := q, type := "v", value := "spf1" } rfl rfl (by simp)
    simp only [List.nil_append] at hf
    rw [hf, hrec]
  · -- leading v=spf1 and trailing all `a`
    simp only [List.singleton_append, List.cons_append, List.nil_append]
    have hnoir : ∀ m ∈ { qualifier := q, type := "v", value := "spf1" } :: (mid ++ [a]),
        m.type ≠ "include" ∧ m.type ≠ "redirect" := by
      intro m hm
      rcases List.mem_cons.1 hm with rfl | hm
      · exact ⟨by simp, by simp⟩
      rcases List.mem_append.1 hm with hm | hm
      · exact ⟨(hmid m hm).2.2.1, (hmid m hm).2.2.2⟩
      · rcases List.mem_singleton.1 hm with rfl
        rw [ha]
        exact ⟨by decide, by decide⟩
    have hchar := recursiveFlattenSpf_no_lookup R
      ({ qualifier := q, type := "v", value := "spf1" } :: (mid ++ [a])) dom 0 hnoir
    have hplain2 : (mid ++ [a]).filter (fun m => m.type != "v" && m.type != "all") = mid := by
      rw [List.filter_append, hplainmid]
      simp [ha]
    have hall2 : (mid ++ [a]).filter (fun m => m.type == "all") = [a] := by
      rw [List.filter_append, hallmid]
      simp [ha]
    have hc1 : List.filter (fun m => m.type == "all")
        ({ qualifier := q, type := "v", value := "spf1" } :: (mid ++ [a])) =
        List.filter (fun m => m.type == "all") (mid ++ [a]) := rfl
    have hc2 : List.filter (fun m => m.type != "v" && m.type != "all")
        ({ qualifier := q, type := "v", value := "spf1" } :: (mid ++ [a])) =
        List.filter (fun m => m.type != "v" && m.type != "all") (mid ++ [a]) := rfl
    have hrec : recursiveFlattenSpf R
        ({ qualifier := q, type := "v", value := "spf1" } :: (mid ++ [a])) dom 0 =
        (mid ++ [a], 0) := by
      rw [hchar, hc1, hall2, hc2, hplain2, dedupMechanisms_eq_self mid hnd]
      simp only [List.getLast?_singleton]
      rw [hnoallmid]
    refine ⟨?_, by rw [hrec]⟩
    have hf := flattenSpf_find_first R dom [] (mid ++ [a])
      { qualifier := q, type := "v", value := "spf1" } rfl rfl (by simp)
    simp only [List.nil_append] at hf
    rw [hf, hrec]

/-- Witness for C4 at the concrete record `v=spf1 ip4:1.2.3.4 ~all`:
flattening returns the parsed record unchanged with zero lookups. -/
theorem claim_C4_idempotence_amended_witness :
    flattenSpf failingResolver (parseSpfCore "v=spf1 ip4:1.2.3.4 ~all") "example.com" =
      parseSpfCore "v=spf1 ip4:1.2.3.4 ~all" ∧
    (recursiveFlattenSpf failingResolver (parseSpfCore "v=spf1 ip4:1.2.3.4 ~all")
      "example.com" 0).2 = 0 :=
  claim_C4_idempotence_amended failingResolver "v=spf1 ip4:1.2.3.4 ~all" "example.com"
    [{ qualifier := '+', type := "v", value := "spf1" }]
    [{ qualifier := '+', type := "ip4", value := "1.2.3.4" }]
    [{ qualifier := '~', type := "all", value := "all" }]
    (by decide) (Or.inr ⟨'+', rfl⟩)
    (by decide) (by decide) (Or.inr ⟨_, rfl, rfl⟩)
